import Mathlib

/-!
Verification of the CESA disaster-report scraper
(`src/hdx/scraper/cesa/cesa.py` and `src/hdx/scraper/cesa/__main__.py`).

The Python values handled by the pipeline are JSON-like: nested dictionaries
with string keys, whose leaf values are strings, numbers, booleans, null or
lists.  Python dictionaries are modelled as association lists in insertion
order (CPython dictionaries preserve insertion order, and assigning to an
existing key keeps its position); Python `set` objects are modelled as
deduplicated lists, order not significant.  Exceptions are modelled with
`Except`; functions that cannot raise stay pure.
-/

namespace CesaSpec

/-- JSON-like values stored in feature dictionaries. -/
inductive JVal where
  | jnull : JVal
  | jbool : Bool → JVal
  | jnum : Int → JVal
  | jstr : String → JVal
  | jarr : List JVal → JVal
  | jobj : List (String × JVal) → JVal

/-- Python exceptions that the embedded code can raise. -/
inductive PyErr where
  | keyError : PyErr
  | typeError : PyErr
  | attributeError : PyErr
  | hdxError : PyErr
deriving DecidableEq, Repr

/-- Python dictionary assignment `d[k] = v` on an association list with
unique keys: overwrites the binding of `k` in place (keeping its position)
when present, appends a new binding otherwise. -/
def dictSet : List (String × JVal) → String → JVal → List (String × JVal)
  | [], k, v => [(k, v)]
  | p :: tl, k, v => if p.1 = k then (k, v) :: tl else p :: dictSet tl k v

/-- Python dictionary read `d[k]` on an association list: the value bound
to `k`, or `none` (a `KeyError`) when absent. -/
def pyGet : List (String × JVal) → String → Option JVal
  | [], _ => none
  | p :: tl, k => if p.1 = k then some p.2 else pyGet tl k

/-- The `isinstance(value, dict)` test of the flattener, returning the
dictionary's items when the value is a dictionary. -/
def getObj : JVal → Option (List (String × JVal))
  | JVal.jobj inner => some inner
  | _ => none

/-- The key-joining rule of `_flatten_dict_inner` (cesa.py line 289):
`f"{parent_key}{sep}{key}" if parent_key else key`. -/
def joinKey (sep parentKey key : String) : String :=
  if parentKey = "" then key else parentKey ++ sep ++ key

/-- The inner recursive worker of `_flatten_dict` (cesa.py lines 287-293):
walks the dictionary depth-first; a nested dictionary is recursed into with
the joined key as new prefix, any other value (including a list) is written
to the accumulating flat dictionary under the joined key. -/
def flattenInner (sep : String) :
    List (String × JVal) → String → List (String × JVal) →
    List (String × JVal)
  | [], _, flat => flat
  | (key, value) :: rest, parentKey, flat =>
    flattenInner sep rest parentKey
      (match _h : getObj value with
       | some inner => flattenInner sep inner (joinKey sep parentKey key) flat
       | none => dictSet flat (joinKey sep parentKey key) value)
termination_by d _ _ => sizeOf d
decreasing_by
  all_goals simp
  all_goals (cases value <;> simp [getObj] at _h)
  subst _h; simp; omega

/-- `_flatten_dict` (cesa.py lines 264-296): flattens nested dictionaries,
joining key paths with `sep` (default "-"). -/
def _flatten_dict (d : List (String × JVal)) (sep : String := "-") :
    List (String × JVal) :=
  flattenInner sep d "" []

/-- The leaf entries of a nested dictionary in depth-first traversal order,
with the key each one is written under by `flattenInner` (the incremental
prefix-joining rule of the code). -/
def leafEntries (sep : String) :
    List (String × JVal) → String → List (String × JVal)
  | [], _ => []
  | (key, value) :: rest, parentKey =>
    (match _h : getObj value with
     | some inner => leafEntries sep inner (joinKey sep parentKey key)
     | none => [(joinKey sep parentKey key, value)]) ++
      leafEntries sep rest parentKey
termination_by d _ => sizeOf d
decreasing_by
  all_goals simp
  all_goals (cases value <;> simp [getObj] at _h)
  subst _h; simp; omega

/-- The leaves of a nested dictionary with their full nesting paths, in
depth-first traversal order. -/
def leafPaths : List (String × JVal) → List (List String × JVal)
  | [] => []
  | (key, value) :: rest =>
    (match _h : getObj value with
     | some inner =>
       (leafPaths inner).map (fun pv => (key :: pv.1, pv.2))
     | none => [([key], value)]) ++ leafPaths rest
termination_by d => sizeOf d
decreasing_by
  all_goals simp
  all_goals (cases value <;> simp [getObj] at _h)
  subst _h; simp; omega

/-- Joining a nesting path with a separator, as the spec words it:
`k1..kn` joined with `sep`. -/
def joinPath (sep : String) : List String → String
  | [] => ""
  | [k] => k
  | k :: ks => k ++ sep ++ joinPath sep ks

/-- Modelled from the spec (§4.1): the flattener's contract, stated
directly — one entry per leaf, keyed by the leaf's nesting path joined
with "-". -/
def flattenSpec (d : List (String × JVal)) : List (String × JVal) :=
  (leafPaths d).map (fun pv => (joinPath "-" pv.1, pv.2))

/-- Folding the leaf entries into a dictionary with Python dict
assignment; `flattenInner` computes exactly this (see
`flattenInner_eq_foldlSet`). -/
def foldlSet (flat es : List (String × JVal)) : List (String × JVal) :=
  es.foldl (fun acc e => dictSet acc e.1 e.2) flat

/-- A GeoJSON feature as the scraper sees it: a `type` discriminator, a
`geometry` value and a `properties` dictionary (cesa.py docstring at
lines 229-257). -/
structure Feature where
  ftype : String
  geometry : JVal
  properties : List (String × JVal)

/-- One disaster type's API `result`:
`{"type": "FeatureCollection", "features": [...]}`. -/
structure FCData where
  ctype : String
  features : List Feature

/-- The fixed disaster-type list `Cesa._DISASTER_TYPE` (cesa.py line 24). -/
def _DISASTER_TYPE : List String :=
  ["flood", "earthquake", "fire", "haze", "wind", "volcano"]

/-- `_flatten_data` (cesa.py lines 229-261): replaces every feature's
`properties` by its flattened form; `type` and `geometry` untouched. -/
def _flatten_data (data : FCData) : FCData :=
  { data with
    features := data.features.map
      (fun f => { f with properties := _flatten_dict f.properties }) }

/-- `Cesa.scrape_data` (cesa.py lines 39-73).  The retriever is modelled
as a function `api` from disaster type to the downloaded `result` object
(URL building, headers and logging are I/O glue).  A disaster type whose
result has no features is skipped (`continue`); otherwise the flattened
result is stored under the disaster type, in loop order. -/
def scrape_data (api : String → FCData) : List (String × FCData) :=
  _DISASTER_TYPE.foldl (fun acc disaster_type =>
    if (api disaster_type).features.isEmpty then acc
    else acc ++ [(disaster_type, _flatten_data (api disaster_type))]) []

/-- `_get_instance_region_code_from_feature` (cesa.py lines 299-304): a
plain dictionary access `feature["properties"]["tags-instance_region_code"]`;
`none` models the `KeyError` raised when the key is missing. -/
def _get_instance_region_code_from_feature (feature : Feature) :
    Option JVal :=
  pyGet feature.properties "tags-instance_region_code"

/-- Python `set.add` on a set modelled as a deduplicated list (iteration
order of a Python set is not semantically significant; membership is). -/
def setAdd (s : List String) (x : String) : List String :=
  if x ∈ s then s else s ++ [x]

/-- One feature's step in `get_list_of_country_iso2s` (cesa.py lines
193-202): `_get_instance_region_code_from_feature(feature)[:2]` inside a
`try` that catches only `TypeError`.  A missing key raises `KeyError`
(uncaught); slicing `None`, a number, a boolean or a dictionary raises
`TypeError` (caught: the feature is skipped with a warning); a list
slices fine but `set.add` on the unhashable slice then raises an
uncaught `TypeError`. -/
def iso2Step (acc : List String) (feature : Feature) :
    Except PyErr (List String) :=
  match _get_instance_region_code_from_feature feature with
  | none => .error .keyError
  | some JVal.jnull => .ok acc
  | some (JVal.jbool _) => .ok acc
  | some (JVal.jnum _) => .ok acc
  | some (JVal.jobj _) => .ok acc
  | some (JVal.jstr s) => .ok (setAdd acc (s.take 2))
  | some (JVal.jarr _) => .error .typeError

/-- `get_list_of_country_iso2s` (cesa.py lines 187-203). -/
def get_list_of_country_iso2s
    (data_by_disaster_dict : List (String × FCData)) :
    Except PyErr (List String) :=
  data_by_disaster_dict.foldlM
    (fun acc p => p.2.features.foldlM iso2Step acc) []

/-- Well-formed region-code value for a feature: present, and either null
or a string — exactly the cases in which neither `filter_country` nor
`get_list_of_country_iso2s` raises on the feature. -/
def featureWF (f : Feature) : Bool :=
  match _get_instance_region_code_from_feature f with
  | some JVal.jnull => true
  | some (JVal.jstr _) => true
  | _ => false

/-- All features of all disaster types are well-formed. -/
def dataWF (d : List (String × FCData)) : Bool :=
  d.all (fun p => p.2.features.all featureWF)

/-- The two-character code a feature contributes to the country set, if
any: `None` region codes contribute nothing. -/
def featureCode (f : Feature) : Option String :=
  match _get_instance_region_code_from_feature f with
  | some (JVal.jstr s) => some (s.take 2)
  | _ => none

/-- All country codes contributed by all features, in scan order, with
duplicates. -/
def codes (d : List (String × FCData)) : List String :=
  d.flatMap (fun p => p.2.features.filterMap featureCode)

/-- Python `str.lower()`: lower-case each character. -/
def pyLower (s : String) : String := ⟨s.data.map Char.toLower⟩

/-- Character-list worker of `pyStartswith`. -/
def isPrefixChars : List Char → List Char → Bool
  | [], _ => true
  | _ :: _, [] => false
  | c :: cs, d :: ds => c == d && isPrefixChars cs ds

/-- Python `str.startswith(prefix)`: the string begins with `prefix`. -/
def pyStartswith (s pre : String) : Bool :=
  isPrefixChars pre.data s.data

/-- The filter condition of `filter_country` (cesa.py lines 215-218):
`code is not None and code.startswith(country_iso2)`.  A missing key
raises `KeyError`; `startswith` on a present non-null non-string value
raises `AttributeError`. -/
def featureKeep (feature : Feature) (country_iso2 : String) :
    Except PyErr Bool :=
  match _get_instance_region_code_from_feature feature with
  | none => .error .keyError
  | some JVal.jnull => .ok false
  | some (JVal.jstr s) => .ok (pyStartswith s country_iso2)
  | some _ => .error .attributeError

/-- The same condition on the exception-free path, as a pure predicate. -/
def featureMatches (feature : Feature) (country_iso2 : String) : Bool :=
  match _get_instance_region_code_from_feature feature with
  | some (JVal.jstr s) => pyStartswith s country_iso2
  | _ => false

/-- A Python list comprehension with a fallible condition: the condition
is evaluated left to right and the first exception propagates. -/
def filterE (pred : Feature → Except PyErr Bool) :
    List Feature → Except PyErr (List Feature)
  | [] => .ok []
  | f :: rest => do
    let b ← pred f
    let tail ← filterE pred rest
    .ok (if b then f :: tail else tail)

/-- `filter_country` (cesa.py lines 206-226), value level: for every
disaster type, keep only the features passing `featureKeep`; the
`deepcopy` has no observable effect on values (object identity is
tracked separately by `filter_country_ref`). -/
def filter_country : List (String × FCData) → String →
    Except PyErr (List (String × FCData))
  | [], _ => .ok []
  | (disaster_type, data) :: rest, country_iso2 => do
    let filtered ← filterE (fun f => featureKeep f country_iso2)
      data.features
    let tail ← filter_country rest country_iso2
    .ok ((disaster_type, { data with features := filtered }) :: tail)

/-- A packaged artifact attached to a dataset (an HDX `Resource`):
filename, description and format tag. -/
structure ResourceModel where
  name : String
  description : String
  format : String
deriving DecidableEq, Repr

/-- A dataset as far as the claims observe it: slug name, title and the
ordered list of attached resources. -/
structure DatasetModel where
  name : String
  title : String
  resources : List ResourceModel
deriving DecidableEq, Repr

/-- `Cesa.generate_dataset` (cesa.py lines 75-135).  External
collaborators are parameters: `get_iso3`/`get_name` for the
`Country` lookups, `slugifyF` for `slugify`, and `locationOk` for
whether `add_country_location` accepts the iso3 code (it raises
`HDXError` otherwise, caught at lines 103-107: the failure is logged and
`None` is returned).  The packager calls
(`_create_geojson_resource` / `_create_shapefile_resource`) are modelled
by the two resources they attach; writing the files is I/O.  The loop at
lines 111-134 packages every disaster type present in the mapping — it
performs no emptiness check on the feature list. -/
def generate_dataset (get_iso3 get_name slugifyF : String → String)
    (locationOk : String → Bool)
    (country_data_by_disaster_dict : List (String × FCData))
    (country_iso2 : String) : Option DatasetModel :=
  let country_iso3 := get_iso3 country_iso2
  let country_name := get_name country_iso2
  let title := country_name ++ ": CESA Disaster Reports"
  let slugified_name :=
    slugifyF ("CESA Disaster Reports for " ++ country_iso3)
  if locationOk country_iso3 then
    some
      { name := slugified_name
        title := title
        resources := country_data_by_disaster_dict.foldl (fun acc p =>
          let basename := p.1 ++ "_reports_" ++ pyLower country_iso3
          let resource_description :=
            "All current " ++ p.1 ++ " reports for " ++ country_name
          acc ++
            [{ name := basename ++ ".geojson"
               description := resource_description
               format := "geojson" },
             { name := basename ++ ".shp.zip"
               description := resource_description
               format := "SHP" }]) [] }
  else none

/-- The two resources `generate_dataset` attaches for one disaster type. -/
def disasterResources (disaster_type country_iso3 country_name : String) :
    List ResourceModel :=
  [{ name := disaster_type ++ "_reports_" ++ pyLower country_iso3 ++
       ".geojson"
     description := "All current " ++ disaster_type ++ " reports for " ++
       country_name
     format := "geojson" },
   { name := disaster_type ++ "_reports_" ++ pyLower country_iso3 ++
       ".shp.zip"
     description := "All current " ++ disaster_type ++ " reports for " ++
       country_name
     format := "SHP" }]

/-- The per-country loop of `main` (__main__.py lines 69-91): filter the
scraped data, call `generate_dataset`, then call
`dataset.update_from_yaml(...)` unconditionally — on a `None` dataset
this raises `AttributeError`.  The HDX upload is I/O; the loop is
modelled as collecting the datasets created, in order. -/
def main_country_loop (get_iso3 get_name slugifyF : String → String)
    (locationOk : String → Bool)
    (data_by_disaster_dict : List (String × FCData)) :
    List String → Except PyErr (List DatasetModel)
  | [] => .ok []
  | country_iso2 :: rest => do
    let cd ← filter_country data_by_disaster_dict country_iso2
    match generate_dataset get_iso3 get_name slugifyF locationOk cd
        country_iso2 with
    | none => .error .attributeError
    | some ds => do
      let tail ← main_country_loop get_iso3 get_name slugifyF locationOk
        data_by_disaster_dict rest
      .ok (ds :: tail)

/-- A feature collection with feature object identity: the features live
in a store (the Python heap, a list indexed by address) and the
collection holds their addresses. -/
structure FCRef where
  ctype : String
  features : List Nat
deriving DecidableEq, Repr

/-- The exception-free filter condition of `filter_country`, read
through the store. -/
def addrKeep (store : List Feature) (a : Nat) (country_iso2 : String) :
    Bool :=
  match store[a]? with
  | some f => featureMatches f country_iso2
  | none => false

/-- `filter_country` (cesa.py lines 206-226) with feature object
identity, on the exception-free path: `filtered_features` (lines
212-219) is the sublist of ORIGINAL feature addresses passing the
filter; `deepcopy(data)` (line 222) allocates fresh copies of the
features, appended to the store; but line 223 then replaces the copy's
`"features"` with `filtered_features`, so the returned collections hold
the original feature objects and the fresh copies become garbage. -/
def filter_country_ref (country_iso2 : String) :
    List Feature → List (String × FCRef) →
    List Feature × List (String × FCRef)
  | store, [] => (store, [])
  | store, (disaster_type, data) :: rest =>
    let filtered :=
      data.features.filter (fun a => addrKeep store a country_iso2)
    let store1 := store ++ data.features.filterMap (fun a => store[a]?)
    let result := filter_country_ref country_iso2 store1 rest
    (result.1, (disaster_type, { data with features := filtered }) ::
      result.2)

/-- All feature addresses of a collection mapping point into the store. -/
def refsWF (store : List Feature) (d : List (String × FCRef)) : Bool :=
  d.all (fun p => p.2.features.all (fun a => a < store.length))

/-- The nested dictionary `{a: {b: 1, c: {d: 2}}}` named by the spec. -/
def exNested : List (String × JVal) :=
  [("a", JVal.jobj
    [("b", JVal.jnum 1), ("c", JVal.jobj [("d", JVal.jnum 2)])])]

/-- A dictionary whose two leaves collide on the flattened key "a-b". -/
def exCollide : List (String × JVal) :=
  [("a", JVal.jobj [("b", JVal.jnum 1)]), ("a-b", JVal.jnum 2)]

/-- A dictionary nested under an empty top-level key. -/
def exEmptyKey : List (String × JVal) :=
  [("", JVal.jobj [("a", JVal.jnum 1)])]

/-- A nested dictionary holding a list value. -/
def exListVal : List (String × JVal) :=
  [("a", JVal.jobj [("b", JVal.jarr [JVal.jnum 1])])]

/-- An already-flat dictionary. -/
def exFlat : List (String × JVal) :=
  [("pkey", JVal.jstr "357181"),
   ("tags-instance_region_code", JVal.jstr "ID-JK")]

/-- A raw API feature with nested properties and region code "ID-JT". -/
def featRaw : Feature :=
  { ftype := "Feature"
    geometry := JVal.jobj [("type", JVal.jstr "Point")]
    properties := [("pkey", JVal.jstr "356171"),
      ("tags", JVal.jobj [("instance_region_code", JVal.jstr "ID-JT")])] }

/-- A retriever returning one feature for earthquake and wind and an
empty result for every other disaster type. -/
def exApi : String → FCData :=
  fun disaster_type =>
    if disaster_type = "earthquake" ∨ disaster_type = "wind" then
      { ctype := "FeatureCollection", features := [featRaw] }
    else { ctype := "FeatureCollection", features := [] }

/-- A flattened feature with region code "ID-JT". -/
def featID : Feature :=
  { ftype := "Feature", geometry := JVal.jnull
    properties := [("pkey", JVal.jstr "1"),
      ("tags-instance_region_code", JVal.jstr "ID-JT")] }

/-- A flattened feature with region code "PH-00". -/
def featPH : Feature :=
  { ftype := "Feature", geometry := JVal.jnull
    properties := [("pkey", JVal.jstr "2"),
      ("tags-instance_region_code", JVal.jstr "PH-00")] }

/-- A flattened feature whose region code is null. -/
def featNull : Feature :=
  { ftype := "Feature", geometry := JVal.jnull
    properties := [("pkey", JVal.jstr "3"),
      ("tags-instance_region_code", JVal.jnull)] }

/-- A flattened feature with no region-code key at all. -/
def featMissing : Feature :=
  { ftype := "Feature", geometry := JVal.jnull
    properties := [("pkey", JVal.jstr "4")] }

/-- A flattened feature whose region code is the one-character
string "I". -/
def featShort : Feature :=
  { ftype := "Feature", geometry := JVal.jnull
    properties := [("pkey", JVal.jstr "5"),
      ("tags-instance_region_code", JVal.jstr "I")] }

/-- A scraped mapping: one Indonesian earthquake feature; Indonesian,
Philippine and null-region wind features. -/
def dEx : List (String × FCData) :=
  [("earthquake", { ctype := "FeatureCollection", features := [featID] }),
   ("wind", { ctype := "FeatureCollection",
              features := [featID, featPH, featNull] })]

/-- A mapping containing a feature with no region-code key. -/
def dMissing : List (String × FCData) :=
  [("flood", { ctype := "FeatureCollection", features := [featMissing] })]

/-- A mapping containing a feature whose region code is one character
long. -/
def dShort : List (String × FCData) :=
  [("flood", { ctype := "FeatureCollection", features := [featShort] })]

/-- A flattened feature whose region code is a number. -/
def featNum : Feature :=
  { ftype := "Feature", geometry := JVal.jnull
    properties := [("pkey", JVal.jstr "6"),
      ("tags-instance_region_code", JVal.jnum 42)] }

/-- A mapping containing a feature whose region code is a number. -/
def dNum : List (String × FCData) :=
  [("flood", { ctype := "FeatureCollection", features := [featNum] })]

/-- A country-filtered mapping whose only disaster type has an empty
feature list. -/
def cdEmpty : List (String × FCData) :=
  [("flood", { ctype := "FeatureCollection", features := [] })]

/-- Country lookup collaborator for the concrete runs. -/
def exIso3 : String → String :=
  fun iso2 => if iso2 = "ID" then "IDN" else "XXX"

/-- Country display-name collaborator for the concrete runs. -/
def exName : String → String :=
  fun iso2 => if iso2 = "ID" then "Indonesia" else "Unknown"

/-- Slugify collaborator for the concrete runs (identity). -/
def exSlug : String → String := fun s => s

/-- A catalog accepting every location. -/
def exLocOkAll : String → Bool := fun _ => true

/-- A catalog accepting only "IDN". -/
def exLocOkIDN : String → Bool := fun iso3 => iso3 == "IDN"

/-- Heap-model store for the aliasing analysis: one feature object. -/
def exStore : List Feature := [featID]

/-- Heap-model mapping: one disaster type holding the feature at
address 0. -/
def exRefs : List (String × FCRef) :=
  [("flood", { ctype := "FeatureCollection", features := [0] })]

theorem str_data_append (a b : String) :
    (a ++ b).data = a.data ++ b.data := by
  cases a; cases b; rfl

theorem str_append_assoc (a b c : String) :
    a ++ b ++ c = a ++ (b ++ c) := by
  apply String.ext
  simp [str_data_append]

theorem str_append_ne_empty (a b : String) (h : a ≠ "") : a ++ b ≠ "" := by
  intro hc
  apply h
  apply String.ext
  have hd := congrArg String.data hc
  simp [str_data_append] at hd
  simp [hd.1]

theorem flattenInner_eq_foldlSet (sep : String) :
    ∀ (d : List (String × JVal)) (pk : String)
      (flat : List (String × JVal)),
    flattenInner sep d pk flat = foldlSet flat (leafEntries sep d pk) := by
  intro d pk flat
  induction d, pk, flat using flattenInner.induct sep with
  | case1 pk flat => rw [flattenInner, leafEntries]; rfl
  | case2 key value rest pk flat ihInner ihRest =>
    rw [flattenInner, leafEntries]
    simp only [foldlSet, List.foldl_append]
    cases value with
    | jobj inner =>
      simp only [getObj] at ihInner ihRest ⊢
      rw [ihRest, ihInner inner rfl]
      rfl
    | jnull => simp only [getObj] at ihRest ⊢; rw [ihRest]; rfl
    | jbool b => simp only [getObj] at ihRest ⊢; rw [ihRest]; rfl
    | jnum n => simp only [getObj] at ihRest ⊢; rw [ihRest]; rfl
    | jstr s => simp only [getObj] at ihRest ⊢; rw [ihRest]; rfl
    | jarr xs => simp only [getObj] at ihRest ⊢; rw [ihRest]; rfl

theorem pyGet_dictSet (d : List (String × JVal)) (k k2 : String)
    (v : JVal) :
    pyGet (dictSet d k v) k2 =
      if k2 = k then some v else pyGet d k2 := by
  induction d with
  | nil =>
    by_cases h : k2 = k <;> simp [dictSet, pyGet, h]
    exact fun hc => absurd hc.symm h
  | cons p tl ih =>
    by_cases hp : p.1 = k
    · by_cases h2 : k2 = k
      · simp [dictSet, pyGet, hp, h2]
      · have h3 : ¬(k = k2) := fun hc => h2 hc.symm
        have h4 : ¬(p.1 = k2) := by rw [hp]; exact h3
        simp [dictSet, pyGet, hp, h3, h4, h2]
    · by_cases h4 : p.1 = k2
      · have h2 : ¬(k2 = k) := by
          intro hc; exact hp (h4.trans hc)
        simp [dictSet, pyGet, hp, h4, h2]
      · simp [dictSet, pyGet, hp, h4, ih]

theorem mem_keys_dictSet (d : List (String × JVal)) (k k2 : String)
    (v : JVal) :
    k2 ∈ (dictSet d k v).map Prod.fst ↔
      k2 ∈ d.map Prod.fst ∨ k2 = k := by
  induction d with
  | nil => simp [dictSet]
  | cons p tl ih =>
    by_cases hp : p.1 = k
    · simp [dictSet, hp]
      tauto
    · simp [dictSet, hp, ih]
      tauto

theorem nodup_keys_dictSet (d : List (String × JVal)) (k : String)
    (v : JVal) (h : (d.map Prod.fst).Nodup) :
    ((dictSet d k v).map Prod.fst).Nodup := by
  induction d with
  | nil => simp [dictSet]
  | cons p tl ih =>
    rw [List.map_cons, List.nodup_cons] at h
    by_cases hp : p.1 = k
    · rw [dictSet, if_pos hp]
      rw [List.map_cons, List.nodup_cons]
      exact ⟨by rw [← hp]; exact h.1, h.2⟩
    · rw [dictSet, if_neg hp]
      rw [List.map_cons, List.nodup_cons]
      refine ⟨?_, ih h.2⟩
      intro hc
      rcases (mem_keys_dictSet tl k p.1 v).1 hc with h1 | h1
      · exact h.1 h1
      · exact hp h1

theorem dictSet_not_mem (d : List (String × JVal)) (k : String)
    (v : JVal) (h : k ∉ d.map Prod.fst) :
    dictSet d k v = d ++ [(k, v)] := by
  induction d with
  | nil => simp [dictSet]
  | cons p tl ih =>
    rw [List.map_cons] at h
    have h1 : ¬(p.1 = k) := by
      intro hc
      exact h (by rw [hc]; exact List.mem_cons_self _ _)
    have h2 : k ∉ List.map Prod.fst tl := by
      intro hc
      exact h (List.mem_cons_of_mem _ hc)
    rw [dictSet, if_neg h1, ih h2]
    simp

theorem entries_dictSet_subset (d : List (String × JVal)) (k : String)
    (v : JVal) :
    ∀ p ∈ dictSet d k v, p ∈ d ∨ p = (k, v) := by
  induction d with
  | nil => simp [dictSet]
  | cons q tl ih =>
    intro p hp
    by_cases hq : q.1 = k
    · simp [dictSet, hq] at hp
      rcases hp with h | h
      · right; rw [h]
      · left; simp [h]
    · simp [dictSet, hq] at hp
      rcases hp with h | h
      · left; simp [h]
      · rcases ih p h with h1 | h1
        · left; simp [h1]
        · right; exact h1

theorem pyGet_append (l1 l2 : List (String × JVal)) (k : String) :
    pyGet (l1 ++ l2) k = (pyGet l1 k).or (pyGet l2 k) := by
  induction l1 with
  | nil => simp [pyGet]
  | cons p tl ih =>
    by_cases hp : p.1 = k <;> simp [pyGet, hp, ih]

theorem foldlSet_append (flat es1 es2 : List (String × JVal)) :
    foldlSet flat (es1 ++ es2) = foldlSet (foldlSet flat es1) es2 := by
  simp [foldlSet]

theorem mem_keys_foldlSet (es : List (String × JVal)) :
    ∀ (flat : List (String × JVal)) (k : String),
    k ∈ (foldlSet flat es).map Prod.fst ↔
      k ∈ flat.map Prod.fst ∨ k ∈ es.map Prod.fst := by
  induction es with
  | nil => simp [foldlSet]
  | cons e tl ih =>
    intro flat k
    simp only [foldlSet, List.foldl_cons] at *
    rw [ih]
    have := mem_keys_dictSet flat e.1 k e.2
    simp only [List.map_cons, List.mem_cons]
    tauto

theorem nodup_keys_foldlSet (es : List (String × JVal)) :
    ∀ flat, (flat.map Prod.fst).Nodup →
    ((foldlSet flat es).map Prod.fst).Nodup := by
  induction es with
  | nil => intro flat h; exact h
  | cons e tl ih =>
    intro flat h
    simp only [foldlSet, List.foldl_cons] at *
    exact ih _ (nodup_keys_dictSet flat e.1 e.2 h)

theorem foldlSet_eq_append (es : List (String × JVal)) :
    ∀ flat, ((flat ++ es).map Prod.fst).Nodup →
    foldlSet flat es = flat ++ es := by
  induction es with
  | nil => intro flat _; simp [foldlSet]
  | cons e tl ih =>
    intro flat h
    simp only [foldlSet, List.foldl_cons]
    have he : e.1 ∉ flat.map Prod.fst := by
      intro hc
      rw [List.map_append, List.map_cons] at h
      exact (List.nodup_append.1 h).2.2 hc (List.mem_cons_self _ _)
    have hr : (flat ++ [e]) ++ tl = flat ++ e :: tl := by simp
    rw [show dictSet flat e.1 e.2 = flat ++ [e] from
      dictSet_not_mem flat e.1 e.2 he]
    rw [← hr]
    exact ih _ (by rw [hr]; exact h)

theorem pyGet_foldlSet (es : List (String × JVal)) :
    ∀ (flat : List (String × JVal)) (k : String),
    pyGet (foldlSet flat es) k =
      (pyGet es.reverse k).or (pyGet flat k) := by
  induction es with
  | nil => simp [foldlSet, pyGet]
  | cons e tl ih =>
    intro flat k
    simp only [foldlSet, List.foldl_cons, List.reverse_cons] at *
    rw [ih, pyGet_dictSet, pyGet_append, Option.or_assoc]
    by_cases h : k = e.1
    · simp [pyGet, h]
    · have h2 : ¬(e.1 = k) := fun hc => h hc.symm
      simp [pyGet, h, h2]

theorem entries_foldlSet_subset (es : List (String × JVal)) :
    ∀ flat p, p ∈ foldlSet flat es → p ∈ flat ∨ p ∈ es := by
  induction es with
  | nil => intro flat p h; left; exact h
  | cons e tl ih =>
    intro flat p h
    simp only [foldlSet, List.foldl_cons] at h
    rcases ih _ p h with h1 | h1
    · rcases entries_dictSet_subset flat e.1 e.2 p h1 with h2 | h2
      · left; exact h2
      · right; rw [h2]; exact List.mem_cons_self _ _
    · right; exact List.mem_cons_of_mem _ h1


theorem _flatten_dict_eq_foldlSet (d : List (String × JVal))
    (sep : String) :
    _flatten_dict d sep = foldlSet [] (leafEntries sep d "") :=
  flattenInner_eq_foldlSet sep d "" []

theorem nodup_keys_flatten (d : List (String × JVal)) (sep : String) :
    ((_flatten_dict d sep).map Prod.fst).Nodup := by
  rw [_flatten_dict_eq_foldlSet]
  exact nodup_keys_foldlSet _ [] (by simp)

theorem mem_keys_flatten (d : List (String × JVal)) (sep k : String) :
    k ∈ (_flatten_dict d sep).map Prod.fst ↔
      k ∈ (leafEntries sep d "").map Prod.fst := by
  rw [_flatten_dict_eq_foldlSet, mem_keys_foldlSet]
  simp

theorem flatten_eq_leafEntries (d : List (String × JVal)) (sep : String)
    (h : ((leafEntries sep d "").map Prod.fst).Nodup) :
    _flatten_dict d sep = leafEntries sep d "" := by
  rw [_flatten_dict_eq_foldlSet]
  have h2 := foldlSet_eq_append (leafEntries sep d "") [] (by simpa using h)
  simpa using h2

theorem pyGet_flatten (d : List (String × JVal)) (sep k : String) :
    pyGet (_flatten_dict d sep) k =
      pyGet (leafEntries sep d "").reverse k := by
  rw [_flatten_dict_eq_foldlSet, pyGet_foldlSet]
  simp [pyGet]

theorem leafEntries_length (sep : String) :
    ∀ (d : List (String × JVal)) (pk : String),
    (leafEntries sep d pk).length = (leafPaths d).length := by
  intro d pk
  induction d, pk using leafEntries.induct sep with
  | case1 pk => rw [leafEntries, leafPaths]; rfl
  | case2 key value rest pk ihInner ihRest =>
    rw [leafEntries, leafPaths]
    cases value with
    | jobj inner =>
      simp only [getObj, List.length_append, List.length_map]
      rw [ihInner inner rfl, ihRest]
    | jnull => simp only [getObj]; simp [ihRest]
    | jbool b => simp only [getObj]; simp [ihRest]
    | jnum n => simp only [getObj]; simp [ihRest]
    | jstr s => simp only [getObj]; simp [ihRest]
    | jarr xs => simp only [getObj]; simp [ihRest]

theorem leafPaths_ne_nil :
    ∀ (d : List (String × JVal)) (pv : List String × JVal),
    pv ∈ leafPaths d → pv.1 ≠ [] := by
  intro d
  induction d using leafPaths.induct with
  | case1 => intro pv h; rw [leafPaths] at h; simp at h
  | case2 key value rest ihInner ihRest =>
    intro pv h
    rw [leafPaths] at h
    cases value with
    | jobj inner =>
      simp only [getObj, List.mem_append, List.mem_map] at h
      rcases h with ⟨q, _, hq⟩ | h
      · rw [← hq]; simp
      · exact ihRest pv h
    | jnull =>
      simp only [getObj, List.mem_append, List.mem_singleton] at h
      rcases h with h | h
      · rw [h]
        simp
      · exact ihRest pv h
    | jbool b =>
      simp only [getObj, List.mem_append, List.mem_singleton] at h
      rcases h with h | h
      · rw [h]
        simp
      · exact ihRest pv h
    | jnum n =>
      simp only [getObj, List.mem_append, List.mem_singleton] at h
      rcases h with h | h
      · rw [h]
        simp
      · exact ihRest pv h
    | jstr s =>
      simp only [getObj, List.mem_append, List.mem_singleton] at h
      rcases h with h | h
      · rw [h]
        simp
      · exact ihRest pv h
    | jarr xs =>
      simp only [getObj, List.mem_append, List.mem_singleton] at h
      rcases h with h | h
      · rw [h]
        simp
      · exact ihRest pv h

theorem joinPath_cons (sep k : String) (p : List String) (h : p ≠ []) :
    joinPath sep (k :: p) = k ++ sep ++ joinPath sep p := by
  cases p with
  | nil => exact absurd rfl h
  | cons a l => rfl

theorem joinKey_empty (sep key : String) : joinKey sep "" key = key := by
  rw [joinKey, if_pos rfl]

theorem joinKey_ne (sep pk key : String) (h : pk ≠ "") :
    joinKey sep pk key = pk ++ sep ++ key := by
  rw [joinKey, if_neg h]

theorem leafEntries_eq_map (sep : String) :
    ∀ (d : List (String × JVal)) (pk : String), pk ≠ "" →
    leafEntries sep d pk =
      (leafPaths d).map
        (fun pv => (pk ++ sep ++ joinPath sep pv.1, pv.2)) := by
  intro d pk
  induction d, pk using leafEntries.induct sep with
  | case1 pk => intro _; rw [leafEntries, leafPaths]; rfl
  | case2 key value rest pk ihInner ihRest =>
    intro hpk
    rw [leafEntries, leafPaths]
    have hnk : joinKey sep pk key ≠ "" := by
      rw [joinKey_ne sep pk key hpk]
      exact str_append_ne_empty _ _ (str_append_ne_empty _ _ hpk)
    cases value with
    | jobj inner =>
      simp only [getObj]
      rw [ihInner inner rfl hnk, ihRest hpk]
      rw [List.map_append, List.map_map]
      congr 1
      apply List.map_congr_left
      intro pv hpv
      have hne := leafPaths_ne_nil inner pv hpv
      simp only [Function.comp_apply, joinPath_cons sep key pv.1 hne,
        joinKey_ne sep pk key hpk]
      simp [str_append_assoc]
    | jnull =>
      simp only [getObj]
      rw [ihRest hpk, joinKey_ne sep pk key hpk]
      rfl
    | jbool b =>
      simp only [getObj]
      rw [ihRest hpk, joinKey_ne sep pk key hpk]
      rfl
    | jnum n =>
      simp only [getObj]
      rw [ihRest hpk, joinKey_ne sep pk key hpk]
      rfl
    | jstr s =>
      simp only [getObj]
      rw [ihRest hpk, joinKey_ne sep pk key hpk]
      rfl
    | jarr xs =>
      simp only [getObj]
      rw [ihRest hpk, joinKey_ne sep pk key hpk]
      rfl

theorem leafEntries_top (sep : String) :
    ∀ (d : List (String × JVal)),
    (∀ inner, ("", JVal.jobj inner) ∉ d) →
    leafEntries sep d "" =
      (leafPaths d).map (fun pv => (joinPath sep pv.1, pv.2)) := by
  intro d
  induction d with
  | nil => intro _; rw [leafEntries, leafPaths]; rfl
  | cons p rest ih =>
    intro h
    obtain ⟨key, value⟩ := p
    have hrest : ∀ inner, ("", JVal.jobj inner) ∉ rest := by
      intro inner hc
      exact h inner (List.mem_cons_of_mem _ hc)
    rw [leafEntries, leafPaths]
    cases value with
    | jobj inner =>
      have hkey : key ≠ "" := by
        intro hc
        exact h inner (by rw [hc]; exact List.mem_cons_self _ _)
      simp only [getObj]
      rw [joinKey_empty, leafEntries_eq_map sep inner key hkey, ih hrest]
      rw [List.map_append, List.map_map]
      congr 1
      apply List.map_congr_left
      intro pv hpv
      have hne := leafPaths_ne_nil inner pv hpv
      simp only [Function.comp_apply, joinPath_cons sep key pv.1 hne]
    | jnull =>
      simp only [getObj]
      rw [ih hrest, joinKey_empty]
      rfl
    | jbool b =>
      simp only [getObj]
      rw [ih hrest, joinKey_empty]
      rfl
    | jnum n =>
      simp only [getObj]
      rw [ih hrest, joinKey_empty]
      rfl
    | jstr s =>
      simp only [getObj]
      rw [ih hrest, joinKey_empty]
      rfl
    | jarr xs =>
      simp only [getObj]
      rw [ih hrest, joinKey_empty]
      rfl



theorem leafEntries_of_flat (sep : String) (d : List (String × JVal))
    (h : d.all (fun p => (getObj p.2).isNone) = true) :
    leafEntries sep d "" = d := by
  induction d with
  | nil => rw [leafEntries]
  | cons p rest ih =>
    obtain ⟨key, value⟩ := p
    rw [List.all_cons, Bool.and_eq_true] at h
    rw [leafEntries]
    cases value with
    | jobj inner => simp [getObj] at h
    | jnull => simp only [getObj, joinKey_empty]; rw [ih h.2]; rfl
    | jbool b => simp only [getObj, joinKey_empty]; rw [ih h.2]; rfl
    | jnum n => simp only [getObj, joinKey_empty]; rw [ih h.2]; rfl
    | jstr s => simp only [getObj, joinKey_empty]; rw [ih h.2]; rfl
    | jarr xs => simp only [getObj, joinKey_empty]; rw [ih h.2]; rfl

theorem leafEntries_values_none (sep : String) :
    ∀ (d : List (String × JVal)) (pk : String),
    ∀ p ∈ leafEntries sep d pk, getObj p.2 = none := by
  intro d pk
  induction d, pk using leafEntries.induct sep with
  | case1 pk => intro p hp; rw [leafEntries] at hp; simp at hp
  | case2 key value rest pk ihInner ihRest =>
    intro p hp
    rw [leafEntries] at hp
    cases value with
    | jobj inner =>
      simp only [getObj, List.mem_append] at hp
      rcases hp with h | h
      · exact ihInner inner rfl p h
      · exact ihRest p h
    | jnull =>
      simp only [getObj, List.mem_append, List.mem_singleton] at hp
      rcases hp with h | h
      · rw [h]; rfl
      · exact ihRest p h
    | jbool b =>
      simp only [getObj, List.mem_append, List.mem_singleton] at hp
      rcases hp with h | h
      · rw [h]; rfl
      · exact ihRest p h
    | jnum n =>
      simp only [getObj, List.mem_append, List.mem_singleton] at hp
      rcases hp with h | h
      · rw [h]; rfl
      · exact ihRest p h
    | jstr s =>
      simp only [getObj, List.mem_append, List.mem_singleton] at hp
      rcases hp with h | h
      · rw [h]; rfl
      · exact ihRest p h
    | jarr xs =>
      simp only [getObj, List.mem_append, List.mem_singleton] at hp
      rcases hp with h | h
      · rw [h]; rfl
      · exact ihRest p h

theorem flatten_values_none (d : List (String × JVal)) (sep : String) :
    ∀ p ∈ _flatten_dict d sep, getObj p.2 = none := by
  intro p hp
  rw [_flatten_dict_eq_foldlSet] at hp
  rcases entries_foldlSet_subset _ [] p hp with h | h
  · simp at h
  · exact leafEntries_values_none sep d "" p h

theorem filter_key_nil (l : List (String × JVal)) (k : String)
    (h : k ∉ l.map Prod.fst) :
    l.filter (fun p => p.1 == k) = [] := by
  induction l with
  | nil => rfl
  | cons p tl ih =>
    rw [List.map_cons] at h
    have h1 : ¬(p.1 = k) := by
      intro hc
      exact h (by rw [hc]; exact List.mem_cons_self _ _)
    have h2 : k ∉ List.map Prod.fst tl := by
      intro hc
      exact h (List.mem_cons_of_mem _ hc)
    rw [List.filter_cons]
    have hb : (p.1 == k) = false := by
      simp only [beq_eq_false_iff_ne, ne_eq]
      exact h1
    rw [hb]
    simpa using ih h2

theorem filter_key_length_one (l : List (String × JVal)) (k : String)
    (hnd : (l.map Prod.fst).Nodup) (hk : k ∈ l.map Prod.fst) :
    (l.filter (fun p => p.1 == k)).length = 1 := by
  induction l with
  | nil => simp at hk
  | cons p tl ih =>
    rw [List.map_cons, List.nodup_cons] at hnd
    rw [List.map_cons, List.mem_cons] at hk
    rw [List.filter_cons]
    by_cases h1 : p.1 = k
    · simp only [h1, beq_self_eq_true, if_pos]
      rw [List.length_cons, filter_key_nil tl k (by rw [← h1]; exact hnd.1)]
      rfl
    · have hb : (p.1 == k) = false := by
        simp [beq_iff_eq]; exact h1
      rw [hb]
      simp only [Bool.false_eq_true, if_neg, not_false_iff]
      rcases hk with h | h
      · exact absurd h.symm h1
      · exact ih hnd.2 h

/-- C3, counterexample: a dictionary nested under the empty top-level key.
The flattener treats an empty accumulated prefix as absent
(`if parent_key else key`), so the leaf at path `["", "a"]` is written
under `"a"`, not under the joined path `"-a"` that the claim's joining
rule prescribes. -/
theorem C3_counterexample :
    _flatten_dict exEmptyKey = [("a", JVal.jnum 1)] ∧
    flattenSpec exEmptyKey = [("-a", JVal.jnum 1)] ∧
    _flatten_dict exEmptyKey ≠ flattenSpec exEmptyKey := by
  refine ⟨?_, ?_, ?_⟩
  · simp [_flatten_dict, exEmptyKey, flattenInner, getObj, joinKey, dictSet]
  · simp [flattenSpec, exEmptyKey, leafPaths, getObj, joinPath]
  · intro hc
    rw [show _flatten_dict exEmptyKey = [("a", JVal.jnum 1)] from by
      simp [_flatten_dict, exEmptyKey, flattenInner, getObj, joinKey,
        dictSet]] at hc
    rw [show flattenSpec exEmptyKey = [("-a", JVal.jnum 1)] from by
      simp [flattenSpec, exEmptyKey, leafPaths, getObj, joinPath]] at hc
    simp at hc

/-- C3, amended: provided no top-level key is the empty string with a
nested dictionary under it (the flattener treats an empty prefix as
absent), and no two distinct leaf paths join to the same flattened key
(collisions overwrite, see C8/C10), the flattener emits exactly one
entry per leaf, keyed by its nesting path joined with "-"; lists are
opaque leaves; the spec's example evaluates as stated. -/
theorem C3_flattener_joined_paths :
    (∀ d : List (String × JVal),
      (∀ inner, ("", JVal.jobj inner) ∉ d) →
      ((leafEntries "-" d "").map Prod.fst).Nodup →
      _flatten_dict d = flattenSpec d) ∧
    _flatten_dict exNested =
      [("a-b", JVal.jnum 1), ("a-c-d", JVal.jnum 2)] ∧
    _flatten_dict exListVal = [("a-b", JVal.jarr [JVal.jnum 1])] := by
  refine ⟨?_, ?_, ?_⟩
  · intro d htop hnodup
    rw [flatten_eq_leafEntries d "-" hnodup, leafEntries_top "-" d htop]
    rfl
  · simp [_flatten_dict, exNested, flattenInner, getObj, joinKey, dictSet]
  · simp [_flatten_dict, exListVal, flattenInner, getObj, joinKey, dictSet]

/-- C3 witness: the amended theorem applied to the spec's own example. -/
theorem C3_flattener_joined_paths_witness :
    _flatten_dict exNested = flattenSpec exNested :=
  C3_flattener_joined_paths.1 exNested
    (by simp [exNested])
    (by simp [exNested, leafEntries, getObj, joinKey])

/-- C8, counterexample: two distinct nested paths (`a.b` and the literal
top-level key `a-b`) join to the same flattened key, so the two leaves
merge into one entry: the flattened result has one entry for two input
leaves. -/
theorem C8_counterexample :
    (_flatten_dict exCollide).length = 1 ∧
    (leafPaths exCollide).length = 2 ∧
    (_flatten_dict exCollide).length ≠ (leafPaths exCollide).length := by
  refine ⟨?_, ?_, ?_⟩
  · simp [_flatten_dict, exCollide, flattenInner, getObj, joinKey, dictSet]
  · simp [exCollide, leafPaths, getObj]
  · rw [show (_flatten_dict exCollide).length = 1 from by
      simp [_flatten_dict, exCollide, flattenInner, getObj, joinKey,
        dictSet]]
    rw [show (leafPaths exCollide).length = 2 from by
      simp [exCollide, leafPaths, getObj]]
    omega

/-- C8, amended: when no two distinct leaf paths join to the same
flattened key, flattening has exactly one entry per leaf of the input;
unconditionally, it never introduces a key that is not the joined key of
some leaf.  (On a collision the entries merge, last write wins: C10.) -/
theorem C8_flatten_leaf_count :
    ∀ d : List (String × JVal),
    (((leafEntries "-" d "").map Prod.fst).Nodup →
      (_flatten_dict d).length = (leafPaths d).length) ∧
    (∀ k, k ∈ (_flatten_dict d).map Prod.fst →
      k ∈ (leafEntries "-" d "").map Prod.fst) := by
  intro d
  constructor
  · intro h
    rw [flatten_eq_leafEntries d "-" h, leafEntries_length]
  · intro k hk
    exact (mem_keys_flatten d "-" k).1 hk

/-- C8 witness: the amended count equality at the spec's example. -/
theorem C8_flatten_leaf_count_witness :
    (_flatten_dict exNested).length = (leafPaths exNested).length :=
  (C8_flatten_leaf_count exNested).1
    (by simp [exNested, leafEntries, getObj, joinKey])

/-- C9: on a mapping with no nested sub-dictionaries (and, being a
Python dict, distinct keys) flattening is the identity; flattening is
idempotent; and a mapping with no leaves flattens to the empty
mapping. -/
theorem C9_flatten_identity_idempotent :
    (∀ d : List (String × JVal),
      d.all (fun p => (getObj p.2).isNone) = true →
      (d.map Prod.fst).Nodup →
      _flatten_dict d = d) ∧
    (∀ d : List (String × JVal),
      _flatten_dict (_flatten_dict d) = _flatten_dict d) ∧
    (∀ d : List (String × JVal),
      leafPaths d = [] → _flatten_dict d = []) := by
  have hid : ∀ d : List (String × JVal),
      d.all (fun p => (getObj p.2).isNone) = true →
      (d.map Prod.fst).Nodup →
      _flatten_dict d = d := by
    intro d hflat hnodup
    have hle := leafEntries_of_flat "-" d hflat
    rw [flatten_eq_leafEntries d "-" (by rw [hle]; exact hnodup), hle]
  refine ⟨hid, ?_, ?_⟩
  · intro d
    apply hid
    · rw [List.all_eq_true]
      intro p hp
      rw [flatten_values_none d "-" p hp]
      rfl
    · exact nodup_keys_flatten d "-"
  · intro d h
    have hlen : (leafEntries "-" d "").length = 0 := by
      rw [leafEntries_length, h]
      rfl
    rw [_flatten_dict_eq_foldlSet, List.length_eq_zero.1 hlen]
    rfl

/-- C9 witness: identity on a concrete flat mapping. -/
theorem C9_flatten_identity_witness : _flatten_dict exFlat = exFlat :=
  C9_flatten_identity_idempotent.1 exFlat (by rfl) (by decide)

/-- C10: the flattener never raises on a flattened-key collision; the
result has exactly one entry for any key that some leaf joins to, and
its value is the one of the leaf written last in depth-first order (the
first hit in the reversed leaf-entry list): last write wins. -/
theorem C10_flatten_last_write_wins :
    ∀ (d : List (String × JVal)) (k : String),
    k ∈ (leafEntries "-" d "").map Prod.fst →
    ((_flatten_dict d).filter (fun p => p.1 == k)).length = 1 ∧
    pyGet (_flatten_dict d) k =
      pyGet (leafEntries "-" d "").reverse k := by
  intro d k hk
  refine ⟨?_, pyGet_flatten d "-" k⟩
  exact filter_key_length_one _ k (nodup_keys_flatten d "-")
    ((mem_keys_flatten d "-" k).2 hk)

/-- C10 witness: at the colliding example the key "a-b" has exactly one
entry, holding the later-written value 2. -/
theorem C10_flatten_last_write_wins_witness :
    ((_flatten_dict exCollide).filter (fun p => p.1 == "a-b")).length
      = 1 ∧
    pyGet (_flatten_dict exCollide) "a-b" =
      pyGet (leafEntries "-" exCollide "").reverse "a-b" :=
  C10_flatten_last_write_wins exCollide "a-b"
    (by simp [exCollide, leafEntries, getObj, joinKey])



theorem scrape_foldl_keys (api : String → FCData) :
    ∀ (L : List String) (acc : List (String × FCData)),
    ((L.foldl (fun acc disaster_type =>
        if (api disaster_type).features.isEmpty then acc
        else acc ++ [(disaster_type, _flatten_data (api disaster_type))])
      acc).map Prod.fst)
      = acc.map Prod.fst ++
        L.filter (fun dt => !(api dt).features.isEmpty) := by
  intro L
  induction L with
  | nil => intro acc; simp
  | cons dt tl ih =>
    intro acc
    rw [List.foldl_cons, List.filter_cons]
    cases h : (api dt).features.isEmpty with
    | true => simp [h, ih]
    | false => simp [h, ih]

/-- C1: `scrape_data` keeps a key for a disaster type exactly when that
type's result has at least one feature, and the keys present appear in
the fixed enumeration order (the result's key list is the fixed list
filtered to non-empty results). -/
theorem C1_scrape_data_keys :
    (∀ api : String → FCData,
      (scrape_data api).map Prod.fst =
        _DISASTER_TYPE.filter (fun dt => !(api dt).features.isEmpty)) ∧
    (∀ (api : String → FCData) (dt : String),
      dt ∈ (scrape_data api).map Prod.fst ↔
        dt ∈ _DISASTER_TYPE ∧ (api dt).features ≠ []) := by
  have hkeys : ∀ api : String → FCData,
      (scrape_data api).map Prod.fst =
        _DISASTER_TYPE.filter (fun dt => !(api dt).features.isEmpty) := by
    intro api
    simp only [scrape_data]
    have h := scrape_foldl_keys api _DISASTER_TYPE []
    simpa using h
  refine ⟨hkeys, ?_⟩
  intro api dt
  rw [hkeys api, List.mem_filter]
  simp

/-- C1 witness: the key-order equation evaluated at a concrete
retriever with data only for earthquake and wind. -/
theorem C1_scrape_data_keys_witness :
    (scrape_data exApi).map Prod.fst = ["earthquake", "wind"] := by
  rw [C1_scrape_data_keys.1 exApi]
  rfl

theorem filterE_of_wf (iso2 : String) :
    ∀ fs : List Feature, fs.all featureWF = true →
    filterE (fun f => featureKeep f iso2) fs =
      .ok (fs.filter (fun f => featureMatches f iso2)) := by
  intro fs
  induction fs with
  | nil => intro _; rfl
  | cons f tl ih =>
    intro h
    rw [List.all_cons, Bool.and_eq_true] at h
    have hw := h.1
    rw [filterE, List.filter_cons]
    cases hr : _get_instance_region_code_from_feature f with
    | none => simp [featureWF, hr] at hw
    | some v =>
      cases v with
      | jnull =>
        have hk : featureKeep f iso2 = .ok false := by
          simp [featureKeep, hr]
        have hm : featureMatches f iso2 = false := by
          simp [featureMatches, hr]
        rw [hk, hm, ih h.2]
        simp [Bind.bind, Except.bind]
      | jstr s =>
        have hk : featureKeep f iso2 = .ok (pyStartswith s iso2) := by
          simp [featureKeep, hr]
        have hm : featureMatches f iso2 = pyStartswith s iso2 := by
          simp [featureMatches, hr]
        rw [hk, hm, ih h.2]
        simp [Bind.bind, Except.bind]
      | jbool b => simp [featureWF, hr] at hw
      | jnum n => simp [featureWF, hr] at hw
      | jarr xs => simp [featureWF, hr] at hw
      | jobj o => simp [featureWF, hr] at hw

/-- C2: on well-formed data (every feature's region-code value present
and null-or-string — the cases in which the code does not raise),
`filter_country` returns, for exactly the same disaster-type keys in the
same order, the original feature list filtered to the features whose
region code is a non-null string beginning with the country code;
disaster types whose filtered list is empty are retained. -/
theorem C2_filter_country_keys_and_features :
    ∀ (d : List (String × FCData)) (iso2 : String),
    dataWF d = true →
    filter_country d iso2 =
      .ok (d.map (fun p => (p.1, { p.2 with features :=
        (p.2.features.filter (fun f => featureMatches f iso2)) }))) := by
  intro d iso2
  induction d with
  | nil => intro _; rfl
  | cons p rest ih =>
    intro h
    obtain ⟨dt, data⟩ := p
    simp only [dataWF, List.all_cons, Bool.and_eq_true] at h
    rw [filter_country, filterE_of_wf iso2 data.features h.1, ih h.2]
    simp [Bind.bind, Except.bind]

/-- C2, counterexample: on a feature with no region-code key,
`filter_country` raises `KeyError` (the getter's dictionary access
fails), and on a numeric region code it raises `AttributeError`
(`startswith` on a non-string): no mapping is returned at all, so "for
every disaster-type mapping" the claimed key-preserving filtered mapping
does not come back. -/
theorem C2_counterexample :
    filter_country dMissing "ID" = .error .keyError ∧
    filter_country dNum "ID" = .error .attributeError := by
  refine ⟨rfl, rfl⟩

/-- C2 witness: the filter equation at a concrete mapping (Indonesian,
Philippine and null-region features) for country "ID". -/
theorem C2_filter_country_witness :
    filter_country dEx "ID" =
      .ok (dEx.map (fun p => (p.1, { p.2 with features :=
        (p.2.features.filter (fun f => featureMatches f "ID")) }))) :=
  C2_filter_country_keys_and_features dEx "ID" (by rfl)

theorem mem_setAdd (s : List String) (x c : String) :
    c ∈ setAdd s x ↔ c ∈ s ∨ c = x := by
  rw [setAdd]
  by_cases h : x ∈ s
  · rw [if_pos h]
    constructor
    · intro h1; left; exact h1
    · rintro (h1 | h1)
      · exact h1
      · rw [h1]; exact h
  · rw [if_neg h]
    simp

theorem mem_foldl_setAdd :
    ∀ (xs acc : List String) (c : String),
    c ∈ xs.foldl setAdd acc ↔ c ∈ acc ∨ c ∈ xs := by
  intro xs
  induction xs with
  | nil => intro acc c; simp
  | cons x tl ih =>
    intro acc c
    rw [List.foldl_cons, ih, mem_setAdd]
    simp only [List.mem_cons]
    tauto

theorem foldlM_iso2_of_wf (fs : List Feature) :
    ∀ acc : List String, fs.all featureWF = true →
    fs.foldlM iso2Step acc =
      .ok ((fs.filterMap featureCode).foldl setAdd acc) := by
  induction fs with
  | nil => intro acc _; rfl
  | cons f tl ih =>
    intro acc h
    rw [List.all_cons, Bool.and_eq_true] at h
    have hw := h.1
    rw [List.foldlM_cons, List.filterMap_cons]
    cases hr : _get_instance_region_code_from_feature f with
    | none => simp [featureWF, hr] at hw
    | some v =>
      cases v with
      | jnull =>
        have hs : iso2Step acc f = .ok acc := by simp [iso2Step, hr]
        have hc : featureCode f = none := by simp [featureCode, hr]
        rw [hs, hc]
        simp only [Bind.bind, Except.bind]
        rw [ih acc h.2]
      | jstr s =>
        have hs : iso2Step acc f = .ok (setAdd acc (s.take 2)) := by
          simp [iso2Step, hr]
        have hc : featureCode f = some (s.take 2) := by
          simp [featureCode, hr]
        rw [hs, hc]
        simp only [Bind.bind, Except.bind]
        rw [ih (setAdd acc (s.take 2)) h.2, List.foldl_cons]
      | jbool b => simp [featureWF, hr] at hw
      | jnum n => simp [featureWF, hr] at hw
      | jarr xs => simp [featureWF, hr] at hw
      | jobj o => simp [featureWF, hr] at hw

/-- C4, amended: extraction returns the value under
"tags-instance_region_code" when the key is present (a missing key
raises `KeyError`, see the counterexample).  On well-formed features
(value present and null-or-string) `get_list_of_country_iso2s` never
raises: a null value is treated as "no country" (the `TypeError` from
slicing `None` is caught and the feature is skipped), and the set
returned holds exactly the two-character truncations of the non-null
region codes — where a string shorter than two characters contributes
itself, not being excluded (see the counterexample). -/
theorem C4_region_extraction_null_safe :
    ∀ d : List (String × FCData), dataWF d = true →
    get_list_of_country_iso2s d = .ok ((codes d).foldl setAdd []) ∧
    (∀ c, c ∈ (codes d).foldl setAdd [] ↔ c ∈ codes d) ∧
    (∀ (acc : List String) (f : Feature),
      _get_instance_region_code_from_feature f = some JVal.jnull →
      iso2Step acc f = .ok acc) := by
  have hgen : ∀ (d : List (String × FCData)) (acc : List String),
      dataWF d = true →
      d.foldlM (fun acc p => p.2.features.foldlM iso2Step acc) acc =
        .ok ((codes d).foldl setAdd acc) := by
    intro d
    induction d with
    | nil => intro acc _; rfl
    | cons p rest ih =>
      intro acc h
      simp only [dataWF, List.all_cons, Bool.and_eq_true] at h
      rw [List.foldlM_cons]
      rw [show codes (p :: rest) =
        p.2.features.filterMap featureCode ++ codes rest from rfl]
      rw [List.foldl_append, foldlM_iso2_of_wf p.2.features acc h.1]
      have ih2 := ih ((p.2.features.filterMap featureCode).foldl setAdd
        acc) h.2
      simp [Bind.bind, Except.bind, ih2]
  intro d h
  refine ⟨?_, ?_, ?_⟩
  · simp only [get_list_of_country_iso2s]
    exact hgen d [] h
  · intro c
    rw [mem_foldl_setAdd]
    simp
  · intro acc f hr
    simp [iso2Step, hr]

/-- C4 witness: the null-region wind feature is skipped without raising
and only the string region codes contribute. -/
theorem C4_region_extraction_null_safe_witness :
    get_list_of_country_iso2s dEx = .ok ((codes dEx).foldl setAdd []) :=
  (C4_region_extraction_null_safe dEx (by rfl)).1

/-- C4, counterexample: a feature with no region-code key makes
`get_list_of_country_iso2s` raise `KeyError` (only `TypeError` is
caught), and a one-character region code "I" is added to the set as-is
rather than excluded. -/
theorem C4_counterexample :
    get_list_of_country_iso2s dMissing = .error .keyError ∧
    get_list_of_country_iso2s dShort = .ok ["I"] := by
  constructor
  · rfl
  · rfl



theorem generate_foldl_resources (iso3 name : String) :
    ∀ (cd : List (String × FCData)) (acc : List ResourceModel),
    cd.foldl (fun acc p =>
      acc ++
        [{ name := p.1 ++ "_reports_" ++ pyLower iso3 ++ ".geojson"
           description := "All current " ++ p.1 ++ " reports for " ++ name
           format := "geojson" },
         { name := p.1 ++ "_reports_" ++ pyLower iso3 ++ ".shp.zip"
           description := "All current " ++ p.1 ++ " reports for " ++ name
           format := "SHP" }]) acc
      = acc ++ cd.flatMap (fun p => disasterResources p.1 iso3 name) := by
  intro cd
  induction cd with
  | nil => intro acc; simp
  | cons p rest ih =>
    intro acc
    rw [List.foldl_cons, List.flatMap_cons, ih]
    simp [disasterResources]

/-- C5, amended: when the location is accepted, `generate_dataset`
attaches the geojson and shapefile resources for EVERY disaster type
present in the country-filtered mapping, in mapping order, regardless of
whether its feature list is empty — there is no emptiness fast-path. -/
theorem C5_generate_dataset_packages_every_key :
    ∀ (get_iso3 get_name slugifyF : String → String)
      (locationOk : String → Bool)
      (cd : List (String × FCData)) (iso2 : String),
    locationOk (get_iso3 iso2) = true →
    generate_dataset get_iso3 get_name slugifyF locationOk cd iso2 =
      some { name :=
               slugifyF ("CESA Disaster Reports for " ++ get_iso3 iso2)
             title := get_name iso2 ++ ": CESA Disaster Reports"
             resources := cd.flatMap (fun p =>
               disasterResources p.1 (get_iso3 iso2) (get_name iso2)) } := by
  intro gi gn sf lok cd iso2 h
  simp only [generate_dataset]
  rw [if_pos h, generate_foldl_resources (gi iso2) (gn iso2) cd []]
  simp

/-- C5 witness: the amended equation at a concrete one-type mapping. -/
theorem C5_generate_dataset_packages_every_key_witness :
    generate_dataset exIso3 exName exSlug exLocOkAll cdEmpty "ID" =
      some { name := exSlug ("CESA Disaster Reports for " ++ exIso3 "ID")
             title := exName "ID" ++ ": CESA Disaster Reports"
             resources := cdEmpty.flatMap (fun p =>
               disasterResources p.1 (exIso3 "ID") (exName "ID")) } :=
  C5_generate_dataset_packages_every_key exIso3 exName exSlug exLocOkAll
    cdEmpty "ID" (by rfl)

/-- C5, counterexample: a country-filtered mapping whose only disaster
type has an EMPTY feature list still gets both resources packaged —
the claim's skip of empty (country, disaster-type) pairs does not
happen, so a zero-row output is produced. -/
theorem C5_counterexample :
    cdEmpty.all (fun p => p.2.features.isEmpty) = true ∧
    generate_dataset exIso3 exName exSlug exLocOkAll cdEmpty "ID" =
      some { name := "CESA Disaster Reports for IDN"
             title := "Indonesia: CESA Disaster Reports"
             resources :=
               [{ name := "flood_reports_idn.geojson"
                  description := "All current flood reports for Indonesia"
                  format := "geojson" },
                { name := "flood_reports_idn.shp.zip"
                  description := "All current flood reports for Indonesia"
                  format := "SHP" }] } ∧
    (generate_dataset exIso3 exName exSlug exLocOkAll cdEmpty
      "ID").map (fun ds => ds.resources.length) = some 2 := by
  refine ⟨rfl, by decide, by decide⟩

/-- C6: the first half of the claim holds — `generate_dataset` returns
`None` (without raising) when the catalog rejects the country — but the
orchestration in `__main__.main` then calls `update_from_yaml` on that
`None`, raising `AttributeError` and aborting the whole run before the
remaining countries are processed; a run over the resolvable country
alone succeeds. -/
theorem C6_unresolvable_location_aborts_run :
    generate_dataset exIso3 exName exSlug exLocOkIDN dEx "XX" = none ∧
    main_country_loop exIso3 exName exSlug exLocOkIDN dEx ["XX", "ID"] =
      .error .attributeError ∧
    (main_country_loop exIso3 exName exSlug exLocOkIDN dEx
      ["ID"]).isOk = true := by
  refine ⟨rfl, rfl, rfl⟩

theorem refsWF_append (store g : List Feature)
    (d : List (String × FCRef)) (h : refsWF store d = true) :
    refsWF (store ++ g) d = true := by
  simp only [refsWF, List.all_eq_true, decide_eq_true_eq] at *
  intro p hp a ha
  have := h p hp a ha
  rw [List.length_append]
  omega

theorem addrKeep_append (store g : List Feature) (a : Nat)
    (iso2 : String) (h : a < store.length) :
    addrKeep (store ++ g) a iso2 = addrKeep store a iso2 := by
  simp only [addrKeep]
  rw [List.getElem?_append, if_pos h]

/-- C7, amended: `filter_country_ref` never touches the input: the store
comes back as the input store extended with the freshly allocated
deep-copies (every input feature object is intact), and the input
mapping is a value the function cannot modify.  However, the returned
collections are NOT disjoint from the input: each returned feature list
is the filtered list of the ORIGINAL feature addresses, so the output
aliases the input's feature objects (line 223 installs
`filtered_features`, built from the originals, into the deep copy). -/
theorem C7_filter_country_preserves_input_yet_aliases :
    ∀ (store : List Feature) (d : List (String × FCRef)) (iso2 : String),
    refsWF store d = true →
    (∃ g, (filter_country_ref iso2 store d).1 = store ++ g) ∧
    (filter_country_ref iso2 store d).2 =
      d.map (fun p => (p.1, { p.2 with features :=
        (p.2.features.filter (fun a => addrKeep store a iso2)) })) := by
  intro store d iso2
  induction d generalizing store with
  | nil => intro _; exact ⟨⟨[], by rw [filter_country_ref]; simp⟩, rfl⟩
  | cons p rest ih =>
    intro h
    obtain ⟨dt, data⟩ := p
    simp only [refsWF, List.all_cons, Bool.and_eq_true] at h
    have hwf : refsWF (store ++
        data.features.filterMap (fun a => store[a]?)) rest = true :=
      refsWF_append store _ rest h.2
    obtain ⟨⟨g1, hg1⟩, hg2⟩ := ih _ hwf
    rw [filter_country_ref]
    constructor
    · exact ⟨data.features.filterMap (fun a => store[a]?) ++ g1,
        by rw [hg1, List.append_assoc]⟩
    · rw [List.map_cons]
      simp only []
      rw [hg2]
      congr 1
      apply List.map_congr_left
      intro q hq
      have hqwf : ∀ a ∈ q.2.features, a < store.length := by
        have h2 := h.2
        rw [List.all_eq_true] at h2
        have h3 := h2 q hq
        rw [List.all_eq_true] at h3
        intro a ha
        exact of_decide_eq_true (h3 a ha)
      have hfe : q.2.features.filter (fun a => addrKeep (store ++
          data.features.filterMap (fun a => store[a]?)) a iso2) =
          q.2.features.filter (fun a => addrKeep store a iso2) :=
        List.filter_congr
          (fun a ha => addrKeep_append store _ a iso2 (hqwf a ha))
      simp [hfe]

/-- C7 witness: the amended theorem at the concrete one-feature store. -/
theorem C7_filter_country_preserves_input_yet_aliases_witness :
    (∃ g, (filter_country_ref "ID" exStore exRefs).1 = exStore ++ g) ∧
    (filter_country_ref "ID" exStore exRefs).2 =
      exRefs.map (fun p => (p.1, { p.2 with features :=
        (p.2.features.filter (fun a => addrKeep exStore a "ID")) })) :=
  C7_filter_country_preserves_input_yet_aliases exStore exRefs "ID"
    (by rfl)

/-- C7, counterexample: the returned mapping holds the very same feature
object (address 0) as the input mapping, so "the returned country-scoped
mapping shares no mutable state with the input" is false: the feature
lists alias the original feature objects. -/
theorem C7_counterexample :
    (filter_country_ref "ID" exStore exRefs).2 =
      [("flood", { ctype := "FeatureCollection", features := [0] })] ∧
    0 ∈ exRefs.flatMap (fun p => p.2.features) ∧
    0 < exStore.length := by
  refine ⟨rfl, by decide, by decide⟩


end CesaSpec
